import Mathlib

/-!
Verification of the URL-to-filesystem scraping pipeline in src/main.py.

The program reads a list of URLs, and for each URL (1-based index `idx`):
* skips it when the lowercased URL string ends in ".pdf" (pdf-skip counter);
* extracts the registrable domain via tldextract (failure: error counter);
* creates the per-domain output directory on demand (failure: error counter);
* derives a filename from the urlparse path via a sanitizer plus a
  200-character length policy;
* skips the item when the output path already exists (exists-skip counter);
* otherwise fetches the page; an exception or empty markdown increments the
  error counter, non-empty markdown is written and counted as a success.

Strings are embedded as `List Char`.  External effects (tldextract, mkdir
success, the network fetch) are oracle functions collected in `ScrapeEnv`;
the filesystem is an association list from paths to `none` (a directory) or
`some content` (a file).
-/

/-- ASCII lowercasing of one character, as Python's str.lower acts on the
ASCII range (the only range relevant to the ".pdf" test). -/
def lowerChar (c : Char) : Char :=
  if 65 ≤ c.toNat ∧ c.toNat ≤ 90 then Char.ofNat (c.toNat + 32) else c

/-- Python's str.endswith on char lists. -/
def endsWith (l s : List Char) : Bool :=
  decide (l.reverse.take s.length = s.reverse)

/-- Split a list at the first occurrence of `c`: returns the part before it
and, when `c` occurs, the part after it. -/
def splitFirst (c : Char) : List Char → List Char × Option (List Char)
  | [] => ([], none)
  | x :: xs =>
    if x = c then ([], some xs)
    else
      let r := splitFirst c xs
      (x :: r.1, r.2)

/-- Python's membership test for a character in a string. -/
def hasChar (c : Char) (l : List Char) : Bool :=
  l.any fun x => decide (x = c)

def isAsciiAlphaB (c : Char) : Bool :=
  (97 ≤ c.toNat && c.toNat ≤ 122) || (65 ≤ c.toNat && c.toNat ≤ 90)

def isDigitB (c : Char) : Bool :=
  48 ≤ c.toNat && c.toNat ≤ 57

/-- Characters allowed in a URL scheme (urllib scheme_chars). -/
def isSchemeCharB (c : Char) : Bool :=
  isAsciiAlphaB c || isDigitB c || decide (c = '+') || decide (c = '-') || decide (c = '.')

/-- Scheme splitting of urllib.parse.urlsplit: when the part before the first
colon is non-empty, starts with an ASCII letter and consists of scheme
characters, it is removed and returned lowercased; otherwise the URL is left
untouched and the scheme is empty. -/
def splitScheme (u : List Char) : List Char × List Char :=
  match splitFirst ':' u with
  | (before, some rest) =>
    match before with
    | [] => ([], u)
    | c :: cs =>
      if isAsciiAlphaB c && (c :: cs).all isSchemeCharB then
        ((c :: cs).map lowerChar, rest)
      else ([], u)
  | (_, none) => ([], u)

/-- Netloc removal of urlsplit: a leading "//" introduces the network
location, which extends to the next '/', '?' or '#' (kept in the remainder). -/
def dropNetloc : List Char → List Char
  | '/' :: '/' :: rest =>
    rest.dropWhile fun c => !(decide (c = '/') || decide (c = '?') || decide (c = '#'))
  | u => u

/-- Schemes for which urllib.parse.urlparse splits ;parameters off the path. -/
def uses_params : List (List Char) :=
  [[], "ftp".toList, "hdl".toList, "prospero".toList, "http".toList,
   "imap".toList, "https".toList, "shttp".toList, "rtsp".toList,
   "rtspu".toList, "sip".toList, "sips".toList, "mms".toList,
   "sftp".toList, "tel".toList]

/-- The part of `p` after its last slash. -/
def afterLastSlash (p : List Char) : List Char :=
  (p.reverse.takeWhile fun c => !decide (c = '/')).reverse

/-- urllib.parse._splitparams, path side: drop everything from the first ';'
of the segment after the last '/' (or of the whole string when it has no
'/').  Only called when the path contains a ';'. -/
def splitParams (p : List Char) : List Char :=
  if hasChar '/' p then
    let seg := afterLastSlash p
    p.take (p.length - seg.length) ++ (splitFirst ';' seg).1
  else (splitFirst ';' p).1

/-- The .path attribute of urllib.parse.urlparse: strip unsafe bytes, split
off scheme, netloc, fragment and query in that order, then split parameters
for the schemes that use them. -/
def urlparsePath (url : List Char) : List Char :=
  let u := url.filter fun c => !(decide (c = '\t') || decide (c = '\r') || decide (c = '\n'))
  let sch := splitScheme u
  let u1 := dropNetloc sch.2
  let u2 := (splitFirst '#' u1).1
  let u3 := (splitFirst '?' u2).1
  if sch.1 ∈ uses_params ∧ hasChar ';' u3 then splitParams u3 else u3

/-- The character class of the regex compiled at src/main.py line 28.  The
raw pattern is a class holding a backslash-escaped slash, colon, star,
question mark, double quote, angle brackets and pipe: the backslash only
escapes the slash, so the backslash character itself is NOT matched. -/
def REPLACE_CHARS_PATTERN (c : Char) : Bool :=
  decide (c = '/') || decide (c = ':') || decide (c = '*') || decide (c = '?') ||
  decide (c = '"') || decide (c = '<') || decide (c = '>') || decide (c = '|')

/-- Python's strip('/'): remove leading and trailing slashes. -/
def stripSlashes (l : List Char) : List Char :=
  ((l.dropWhile fun c => decide (c = '/')).reverse.dropWhile fun c => decide (c = '/')).reverse

/-- REPLACE_CHARS_PATTERN.sub applied to the stripped path: each matched
character becomes an underscore. -/
def replaceBad (l : List Char) : List Char :=
  l.map fun c => if REPLACE_CHARS_PATTERN c then '_' else c

/-- sanitize_url_path_for_filename of src/main.py lines 30-56. -/
def sanitize_url_path_for_filename (path : List Char) : List Char :=
  if path = ['/'] ∨ path = [] then "index".toList
  else if replaceBad (stripSlashes path) = [] then "untitled".toList
  else replaceBad (stripSlashes path)

def MAX_FILENAME_LEN : Nat := 200

/-- Python slicing l[:i] with a possibly negative bound. -/
def pySliceTo (l : List Char) (i : Int) : List Char :=
  if 0 ≤ i then l.take i.toNat else l.take (l.length - (-i).toNat)

/-- The filename length policy of src/main.py lines 159-169: append ".md";
when the result exceeds 200 characters, re-slice the base to
MAX_FILENAME_LEN - len(".md") - len(str(idx)) - 1 characters and append an
underscore, the decimal index and ".md". -/
def truncatedOutputFilename (filename_base : List Char) (idx : Nat) : List Char :=
  let output_filename := filename_base ++ ".md".toList
  if output_filename.length > MAX_FILENAME_LEN then
    let digits := Nat.toDigits 10 idx
    let truncated_base :=
      pySliceTo filename_base ((MAX_FILENAME_LEN : Int) - 3 - digits.length - 1)
    truncated_base ++ '_' :: digits ++ ".md".toList
  else output_filename

/-- Oracles for the external effects of one run: the output root directory,
tldextract's (domain, suffix) decomposition, whether creating a directory
succeeds, and the network fetch (`none` models a raised exception or a
missing markdown attribute). -/
structure ScrapeEnv where
  root : List Char
  extract : List Char → List Char × List Char
  mkdirOk : List Char → Bool
  fetch : List Char → Option (List Char)

/-- Defensive domain sanitization of src/main.py line 139: replace ':' and
'/' with underscores. -/
def sanitizeDomain (l : List Char) : List Char :=
  l.map fun c => if c = ':' ∨ c = '/' then '_' else c

/-- The registrable-domain folder name: `none` when tldextract yields an
empty domain or suffix (the per-item error case of lines 130-133), otherwise
the sanitized "domain.suffix". -/
def domainOf (env : ScrapeEnv) (url : List Char) : Option (List Char) :=
  let e := env.extract url
  if e.1 = [] ∨ e.2 = [] then none
  else some (sanitizeDomain (e.1 ++ '.' :: e.2))

/-- os.path.join for one relative component. -/
def joinPath (a b : List Char) : List Char := a ++ '/' :: b

/-- The output filename for a URL at 1-based index `idx`: sanitized urlparse
path under the length policy. -/
def resolveOutputFilename (url : List Char) (idx : Nat) : List Char :=
  truncatedOutputFilename (sanitize_url_path_for_filename (urlparsePath url)) idx

/-- Full output path resolution (spec section 4.3 resolve_path): root /
domain / filename; `none` when the domain is unresolvable. -/
def resolve_path (env : ScrapeEnv) (url : List Char) (idx : Nat) : Option (List Char) :=
  (domainOf env url).map fun m => joinPath (joinPath env.root m) (resolveOutputFilename url idx)

/-- The filesystem: an association list from existing paths to `none` (a
directory) or `some content` (a file). -/
abbrev Fs := List (List Char × Option (List Char))

/-- os.path.exists. -/
def pathExists : Fs → List Char → Bool
  | [], _ => false
  | e :: rest, p => if e.1 = p then true else pathExists rest p

/-- Read an entry of the filesystem. -/
def lookupFs : Fs → List Char → Option (Option (List Char))
  | [], _ => none
  | e :: rest, p => if e.1 = p then some e.2 else lookupFs rest p

/-- Terminal status of one work item (spec section 4.4). -/
inductive Outcome where
  | skipPdf
  | skipExists
  | saved
  | err
  deriving DecidableEq, Repr

/-- Mutable run state: the filesystem, the four counters of src/main.py
lines 108-112, and the number of scrape_url invocations. -/
structure RunState where
  fs : Fs
  skippedPdf : Nat
  skippedExists : Nat
  succeeded : Nat
  errored : Nat
  fetchCount : Nat
  deriving Repr

structure ItemResult where
  outcome : Outcome
  st : RunState

def initState (fs : Fs) : RunState := ⟨fs, 0, 0, 0, 0, 0⟩

/-- The PDF filter of src/main.py line 120: url.lower().endswith(".pdf") —
the test is on the WHOLE url string, not on its path component. -/
def pdfCheck (url : List Char) : Bool :=
  endsWith (url.map lowerChar) ".pdf".toList

/-- The part of one iteration after the domain directory is settled
(`fs1` is the filesystem after the mkdir step): compute the filename, skip
when the output path exists, otherwise fetch and either record an error
(exception or empty markdown) or write the file. -/
def afterDirStep (env : ScrapeEnv) (st : RunState) (fs1 : Fs) (idx : Nat)
    (url dir : List Char) : ItemResult :=
  let outputPath := joinPath dir (resolveOutputFilename url idx)
  if pathExists fs1 outputPath then
    ⟨Outcome.skipExists, { st with fs := fs1, skippedExists := st.skippedExists + 1 }⟩
  else
    match env.fetch url with
    | none =>
      ⟨Outcome.err,
        { st with fs := fs1, errored := st.errored + 1, fetchCount := st.fetchCount + 1 }⟩
    | some md =>
      if md = [] then
        ⟨Outcome.err,
          { st with fs := fs1, errored := st.errored + 1, fetchCount := st.fetchCount + 1 }⟩
      else
        ⟨Outcome.saved,
          { st with fs := (outputPath, some md) :: fs1,
                    succeeded := st.succeeded + 1, fetchCount := st.fetchCount + 1 }⟩

/-- One iteration of the main loop of src/main.py lines 116-201 on the URL
at 1-based index `idx`. -/
def processItem (env : ScrapeEnv) (st : RunState) (idx : Nat) (url : List Char) : ItemResult :=
  if pdfCheck url then
    ⟨Outcome.skipPdf, { st with skippedPdf := st.skippedPdf + 1 }⟩
  else
    match domainOf env url with
    | none => ⟨Outcome.err, { st with errored := st.errored + 1 }⟩
    | some m =>
      let dir := joinPath env.root m
      if pathExists st.fs dir then afterDirStep env st st.fs idx url dir
      else if env.mkdirOk dir then afterDirStep env st ((dir, none) :: st.fs) idx url dir
      else ⟨Outcome.err, { st with errored := st.errored + 1 }⟩

/-- The main loop from index `idx` on: returns the final state and the
outcome of every processed URL, in order. -/
def runFrom (env : ScrapeEnv) : RunState → Nat → List (List Char) → RunState × List Outcome
  | st, _, [] => (st, [])
  | st, idx, url :: rest =>
    let r := processItem env st idx url
    let p := runFrom env r.st (idx + 1) rest
    (p.1, r.outcome :: p.2)

/-- One full sequential run over a URL list against an initial filesystem:
counters start at zero, enumeration starts at 1. -/
def runPipeline (env : ScrapeEnv) (fs : Fs) (urls : List (List Char)) :
    RunState × List Outcome :=
  runFrom env (initState fs) 1 urls

/-- Sum of the four outcome counters (spec section 8, property 7). -/
def counted (st : RunState) : Nat :=
  st.skippedPdf + st.skippedExists + st.succeeded + st.errored

/-- A work item is settled against filesystem `F`: either its URL passes the
PDF filter, or its domain resolves and both its domain directory and its
output path are already present in `F`. -/
def itemGood (env : ScrapeEnv) (F : Fs) (idx : Nat) (url : List Char) : Prop :=
  pdfCheck url = true ∨
  ∃ m, domainOf env url = some m
    ∧ pathExists F (joinPath env.root m) = true
    ∧ pathExists F (joinPath (joinPath env.root m) (resolveOutputFilename url idx)) = true

/-- Concrete output root used by the witnesses. -/
def cxRoot : List Char := "output".toList

/-- Concrete environment whose fetch always returns non-empty markdown. -/
def cxEnv : ScrapeEnv :=
  ⟨cxRoot, fun _ => ("x".toList, "com".toList), fun _ => true, fun _ => some "content".toList⟩

/-- Concrete environment whose fetch always raises. -/
def cxEnvNoFetch : ScrapeEnv :=
  ⟨cxRoot, fun _ => ("x".toList, "com".toList), fun _ => true, fun _ => none⟩

/-- Concrete environment whose extract never finds a domain. -/
def cxEnvNoDomain : ScrapeEnv :=
  ⟨cxRoot, fun _ => ([], []), fun _ => true, fun _ => some "content".toList⟩

def cxUrlPdfQuery : List Char := "http://x.com/doc.pdf?x=1".toList

def cxUrlPdf : List Char := "http://x.com/doc.pdf".toList

def cxUrlA : List Char := "http://x.com/a".toList

def cxDirXcom : List Char := "output/x.com".toList

def cxFileA : List Char := "output/x.com/a.md".toList

theorem take_length_append (l s : List Char) : (l ++ s).take l.length = l := by
  induction l with
  | nil => rfl
  | cons a t ih => simp [List.take_succ_cons, ih]

theorem endsWith_append (l s : List Char) : endsWith (l ++ s) s = true := by
  have h : (l ++ s).reverse.take s.length = s.reverse := by
    rw [List.reverse_append, show s.length = s.reverse.length by simp]
    exact take_length_append _ _
  simp [endsWith, h]

theorem truncated_short (base : List Char) (idx : Nat)
    (h : (base ++ ".md".toList).length ≤ MAX_FILENAME_LEN) :
    truncatedOutputFilename base idx = base ++ ".md".toList := by
  unfold truncatedOutputFilename
  simp only []
  rw [if_neg (by omega)]

theorem truncated_bound (base : List Char) (idx : Nat)
    (hd : (Nat.toDigits 10 idx).length ≤ 196) :
    (truncatedOutputFilename base idx).length ≤ MAX_FILENAME_LEN
    ∧ endsWith (truncatedOutputFilename base idx) ".md".toList = true := by
  unfold truncatedOutputFilename
  by_cases h : (base ++ ".md".toList).length > MAX_FILENAME_LEN
  · rw [if_pos h]
    constructor
    · have hcut : ((MAX_FILENAME_LEN : Int) - 3 - (Nat.toDigits 10 idx).length - 1)
          = ((196 - (Nat.toDigits 10 idx).length : Nat) : Int) := by
        unfold MAX_FILENAME_LEN
        omega
      have hb : (pySliceTo base ((MAX_FILENAME_LEN : Int) - 3 - (Nat.toDigits 10 idx).length - 1)).length
          ≤ 196 - (Nat.toDigits 10 idx).length := by
        rw [hcut]
        unfold pySliceTo
        rw [if_pos (by positivity)]
        simp
      simp only [List.length_append, List.length_cons]
      have h3 : (".md".toList).length = 3 := by decide
      rw [h3]
      unfold MAX_FILENAME_LEN at hb ⊢
      omega
    · rw [show pySliceTo base ((MAX_FILENAME_LEN : Int) - 3 - (Nat.toDigits 10 idx).length - 1)
            ++ '_' :: (Nat.toDigits 10 idx) ++ ".md".toList
          = (pySliceTo base ((MAX_FILENAME_LEN : Int) - 3 - (Nat.toDigits 10 idx).length - 1)
            ++ '_' :: (Nat.toDigits 10 idx)) ++ ".md".toList by simp]
      exact endsWith_append _ _
  · rw [if_neg h]
    constructor
    · omega
    · exact endsWith_append _ _

/-- C7: for every name seed whose sanitized base plus ".md" exceeds 200
characters, the resolved filename is truncated to
truncated_base + "_" + decimal index + ".md" of at most 200 characters and
still ends in ".md"; filenames of at most 200 characters are used unchanged.
The index hypothesis (at most 196 decimal digits) holds for every index a
run can enumerate. -/
theorem c7_length_bound (seed : List Char) (idx : Nat)
    (hd : (Nat.toDigits 10 idx).length ≤ 196) :
    (truncatedOutputFilename (sanitize_url_path_for_filename seed) idx).length ≤ MAX_FILENAME_LEN
    ∧ endsWith (truncatedOutputFilename (sanitize_url_path_for_filename seed) idx)
        ".md".toList = true
    ∧ ((sanitize_url_path_for_filename seed ++ ".md".toList).length ≤ MAX_FILENAME_LEN →
        truncatedOutputFilename (sanitize_url_path_for_filename seed) idx
          = sanitize_url_path_for_filename seed ++ ".md".toList) := by
  obtain ⟨h1, h2⟩ := truncated_bound (sanitize_url_path_for_filename seed) idx hd
  exact ⟨h1, h2, fun h => truncated_short _ _ h⟩

/-- Witness for C7 at a 210-character seed and index 1. -/
theorem c7_length_bound_witness :
    (Nat.toDigits 10 1).length ≤ 196
    ∧ ((truncatedOutputFilename (sanitize_url_path_for_filename (List.replicate 210 'a')) 1).length
          ≤ MAX_FILENAME_LEN
       ∧ endsWith (truncatedOutputFilename
            (sanitize_url_path_for_filename (List.replicate 210 'a')) 1) ".md".toList = true
       ∧ ((sanitize_url_path_for_filename (List.replicate 210 'a') ++ ".md".toList).length
              ≤ MAX_FILENAME_LEN →
           truncatedOutputFilename (sanitize_url_path_for_filename (List.replicate 210 'a')) 1
             = sanitize_url_path_for_filename (List.replicate 210 'a') ++ ".md".toList)) :=
  ⟨by decide, c7_length_bound (List.replicate 210 'a') 1 (by decide)⟩

/-- C2 (refutation of the spec, matching the code as written): the compiled
character class escapes the slash, not the backslash, so a backslash
survives sanitization: the output of the sanitizer on "a\b" still contains
a backslash.  The code's own comment (src/main.py lines 26-27) lists the
backslash among the characters to replace, so this is a slip in the code. -/
theorem c2_backslash_kept :
    sanitize_url_path_for_filename ('a' :: '\\' :: ['b']) = 'a' :: '\\' :: ['b']
    ∧ REPLACE_CHARS_PATTERN '\\' = false
    ∧ '\\' ∈ sanitize_url_path_for_filename ('a' :: '\\' :: ['b']) := by
  decide

/-- C8: the sanitizer is total with no error outcomes: every input maps to a
non-empty string, the empty string and "/" map to "index", and any input
that strips and replaces to the empty string maps to "untitled". -/
theorem c8_sanitizer_total (p : List Char) :
    sanitize_url_path_for_filename p ≠ []
    ∧ sanitize_url_path_for_filename [] = "index".toList
    ∧ sanitize_url_path_for_filename ['/'] = "index".toList
    ∧ ((p ≠ [] ∧ p ≠ ['/'] ∧ replaceBad (stripSlashes p) = []) →
        sanitize_url_path_for_filename p = "untitled".toList) := by
  refine ⟨?_, by decide, by decide, ?_⟩
  · unfold sanitize_url_path_for_filename
    split_ifs with h1 h2
    · decide
    · decide
    · exact h2
  · rintro ⟨hp1, hp2, hrep⟩
    unfold sanitize_url_path_for_filename
    split_ifs with h1
    · rcases h1 with h | h
      · exact absurd h hp2
      · exact absurd h hp1
    · rfl

/-- Witness for C8 at the input "//", which strips to the empty string. -/
theorem c8_sanitizer_total_witness :
    sanitize_url_path_for_filename ('/' :: ['/']) ≠ []
    ∧ sanitize_url_path_for_filename ('/' :: ['/']) = "untitled".toList :=
  ⟨(c8_sanitizer_total ('/' :: ['/'])).1,
   (c8_sanitizer_total ('/' :: ['/'])).2.2.2 ⟨by decide, by decide, by decide⟩⟩

/-- C9: path resolution is deterministic (it is a pure function of the
environment, URL and index, so repeated evaluation is identical), and
outside the over-200-character truncation branch the resolved path does not
depend on the item index at all. -/
theorem c9_path_determinism (env : ScrapeEnv) (url : List Char) (i j : Nat)
    (h : (sanitize_url_path_for_filename (urlparsePath url) ++ ".md".toList).length
          ≤ MAX_FILENAME_LEN) :
    resolve_path env url i = resolve_path env url i
    ∧ resolve_path env url i = resolve_path env url j := by
  refine ⟨rfl, ?_⟩
  unfold resolve_path resolveOutputFilename
  rw [truncated_short _ i h, truncated_short _ j h]

/-- Witness for C9 at a concrete URL and indices 1 and 2. -/
theorem c9_path_determinism_witness :
    (sanitize_url_path_for_filename (urlparsePath cxUrlA) ++ ".md".toList).length
        ≤ MAX_FILENAME_LEN
    ∧ (resolve_path cxEnv cxUrlA 1 = resolve_path cxEnv cxUrlA 1
       ∧ resolve_path cxEnv cxUrlA 1 = resolve_path cxEnv cxUrlA 2) :=
  ⟨by decide, c9_path_determinism cxEnv cxUrlA 1 2 (by decide)⟩

theorem afterDirStep_skippedPdf (env : ScrapeEnv) (st : RunState) (fs1 : Fs) (idx : Nat)
    (url dir : List Char) :
    (afterDirStep env st fs1 idx url dir).st.skippedPdf = st.skippedPdf := by
  simp only [afterDirStep]
  split
  · rfl
  · split
    · rfl
    · split <;> rfl

theorem processItem_skippedPdf (env : ScrapeEnv) (st : RunState) (idx : Nat) (url : List Char) :
    (processItem env st idx url).st.skippedPdf
      = if pdfCheck url then st.skippedPdf + 1 else st.skippedPdf := by
  simp only [processItem]
  split
  · rfl
  · split
    · rfl
    · split
      · rw [afterDirStep_skippedPdf]
      · split
        · rw [afterDirStep_skippedPdf]
        · rfl

theorem processItem_pdf (env : ScrapeEnv) (st : RunState) (idx : Nat) (url : List Char)
    (h : pdfCheck url = true) :
    processItem env st idx url
      = ⟨Outcome.skipPdf, { st with skippedPdf := st.skippedPdf + 1 }⟩ := by
  unfold processItem
  rw [if_pos h]

/-- C1 (amended): the PDF filter tests the WHOLE lowercased URL string, not
its path component.  For every URL whose full string ends in ".pdf"
(case-insensitively) the item never invokes the network fetch and increments
the pdf-skip counter exactly once; for every other URL the pdf-skip counter
is not incremented. -/
theorem c1_pdf_filter (env : ScrapeEnv) (st : RunState) (idx : Nat) (url : List Char) :
    ((processItem env st idx url).st.skippedPdf
        = if endsWith (url.map lowerChar) ".pdf".toList then st.skippedPdf + 1
          else st.skippedPdf)
    ∧ (endsWith (url.map lowerChar) ".pdf".toList = true →
        (processItem env st idx url).st.fetchCount = st.fetchCount
        ∧ (processItem env st idx url).outcome = Outcome.skipPdf) := by
  constructor
  · rw [processItem_skippedPdf]
    rfl
  · intro h
    rw [processItem_pdf env st idx url h]
    exact ⟨rfl, rfl⟩

/-- Witness for C1 at a URL ending in ".PDF". -/
theorem c1_pdf_filter_witness :
    endsWith ("http://x.com/doc.PDF".toList.map lowerChar) ".pdf".toList = true
    ∧ (processItem cxEnv (initState []) 1 "http://x.com/doc.PDF".toList).st.fetchCount
        = (initState []).fetchCount
    ∧ (processItem cxEnv (initState []) 1 "http://x.com/doc.PDF".toList).outcome
        = Outcome.skipPdf :=
  ⟨by decide,
   (c1_pdf_filter cxEnv (initState []) 1 "http://x.com/doc.PDF".toList).2 (by decide)⟩

/-- Counterexample to C1 as stated: the URL "http://x.com/doc.pdf?x=1" has a
path component that ends in ".pdf", yet the pipeline fetches it and does not
touch the pdf-skip counter, because the code tests the whole URL string
(which ends in "?x=1"). -/
theorem c1_counterexample :
    endsWith ((urlparsePath cxUrlPdfQuery).map lowerChar) ".pdf".toList = true
    ∧ urlparsePath cxUrlPdfQuery = "/doc.pdf".toList
    ∧ (processItem cxEnv (initState []) 1 cxUrlPdfQuery).st.fetchCount = 1
    ∧ (processItem cxEnv (initState []) 1 cxUrlPdfQuery).st.skippedPdf = 0
    ∧ (processItem cxEnv (initState []) 1 cxUrlPdfQuery).outcome = Outcome.saved := by
  decide

/-- C5: when an item's resolved output path (and, as on any real filesystem,
its parent domain directory) already exists, the item is decided at the
existence check: it terminates as SKIP_EXISTS, the exists-skip counter is
incremented, the filesystem is untouched, and the network fetch is never
issued. -/
theorem c5_exists_skip (env : ScrapeEnv) (st : RunState) (idx : Nat) (url m : List Char)
    (hpdf : pdfCheck url = false)
    (hdom : domainOf env url = some m)
    (hdir : pathExists st.fs (joinPath env.root m) = true)
    (hout : pathExists st.fs
        (joinPath (joinPath env.root m) (resolveOutputFilename url idx)) = true) :
    (processItem env st idx url).outcome = Outcome.skipExists
    ∧ (processItem env st idx url).st.fetchCount = st.fetchCount
    ∧ (processItem env st idx url).st.skippedExists = st.skippedExists + 1
    ∧ (processItem env st idx url).st.fs = st.fs := by
  simp only [processItem, hpdf, Bool.false_eq_true, if_false, hdom, hdir, if_true,
    afterDirStep, hout]
  exact ⟨trivial, trivial, trivial, trivial⟩

/-- Witness for C5: the file output/x.com/a.md already exists. -/
theorem c5_exists_skip_witness :
    (pdfCheck cxUrlA = false
     ∧ domainOf cxEnv cxUrlA = some "x.com".toList
     ∧ pathExists [(cxDirXcom, none), (cxFileA, some "old".toList)]
         (joinPath cxEnv.root "x.com".toList) = true
     ∧ pathExists [(cxDirXcom, none), (cxFileA, some "old".toList)]
         (joinPath (joinPath cxEnv.root "x.com".toList)
           (resolveOutputFilename cxUrlA 1)) = true)
    ∧ ((processItem cxEnv (initState [(cxDirXcom, none), (cxFileA, some "old".toList)]) 1
          cxUrlA).outcome = Outcome.skipExists
       ∧ (processItem cxEnv (initState [(cxDirXcom, none), (cxFileA, some "old".toList)]) 1
            cxUrlA).st.fetchCount
          = (initState [(cxDirXcom, none), (cxFileA, some "old".toList)]).fetchCount
       ∧ (processItem cxEnv (initState [(cxDirXcom, none), (cxFileA, some "old".toList)]) 1
            cxUrlA).st.skippedExists
          = (initState [(cxDirXcom, none), (cxFileA, some "old".toList)]).skippedExists + 1
       ∧ (processItem cxEnv (initState [(cxDirXcom, none), (cxFileA, some "old".toList)]) 1
            cxUrlA).st.fs
          = (initState [(cxDirXcom, none), (cxFileA, some "old".toList)]).fs) :=
  ⟨⟨by decide, by decide, by decide, by decide⟩,
   c5_exists_skip cxEnv (initState [(cxDirXcom, none), (cxFileA, some "old".toList)]) 1
     cxUrlA "x.com".toList (by decide) (by decide) (by decide) (by decide)⟩

theorem afterDirStep_err_count (env : ScrapeEnv) (st : RunState) (fs1 : Fs) (idx : Nat)
    (url dir : List Char)
    (h : (afterDirStep env st fs1 idx url dir).outcome = Outcome.err) :
    (afterDirStep env st fs1 idx url dir).st.errored = st.errored + 1 := by
  by_cases hex : pathExists fs1 (joinPath dir (resolveOutputFilename url idx)) = true
  · simp [afterDirStep, hex] at h
  · cases hf : env.fetch url with
    | none => simp [afterDirStep, hex, hf]
    | some md =>
      by_cases hmd : md = []
      · simp [afterDirStep, hex, hf, hmd]
      · simp [afterDirStep, hex, hf, hmd] at h

theorem processItem_err_count (env : ScrapeEnv) (st : RunState) (idx : Nat) (url : List Char)
    (h : (processItem env st idx url).outcome = Outcome.err) :
    (processItem env st idx url).st.errored = st.errored + 1 := by
  by_cases hp : pdfCheck url = true
  · simp [processItem, hp] at h
  · cases hd : domainOf env url with
    | none => simp [processItem, hp, hd]
    | some m =>
      by_cases hdir : pathExists st.fs (joinPath env.root m) = true
      · simp only [processItem, hp, Bool.false_eq_true, if_false, hd, hdir, if_true] at h ⊢
        exact afterDirStep_err_count env st st.fs idx url _ h
      · by_cases hmk : env.mkdirOk (joinPath env.root m) = true
        · simp only [processItem, hp, Bool.false_eq_true, if_false, hd, hdir, hmk,
            if_true] at h ⊢
          exact afterDirStep_err_count env st _ idx url _ h
        · simp [processItem, hp, hd, hdir, hmk]

theorem runFrom_trace_length (urls : List (List Char)) :
    ∀ (env : ScrapeEnv) (st : RunState) (idx : Nat),
      (runFrom env st idx urls).2.length = urls.length := by
  induction urls with
  | nil => intro env st idx; rfl
  | cons u rest ih =>
    intro env st idx
    simp only [runFrom, List.length_cons]
    rw [ih]

/-- C6: every per-item failure is caught at the item boundary: an item whose
outcome is an error increments the error counter by exactly one, and the run
still processes every remaining URL (the trace of the run is the error
outcome followed by the trace of the remaining items, one outcome per URL). -/
theorem c6_error_containment (env : ScrapeEnv) (st : RunState) (idx : Nat)
    (url : List Char) (rest : List (List Char))
    (h : (processItem env st idx url).outcome = Outcome.err) :
    (processItem env st idx url).st.errored = st.errored + 1
    ∧ (runFrom env st idx (url :: rest)).2
        = Outcome.err :: (runFrom env (processItem env st idx url).st (idx + 1) rest).2
    ∧ (runFrom env st idx (url :: rest)).2.length = rest.length + 1 := by
  refine ⟨processItem_err_count env st idx url h, ?_, ?_⟩
  · simp only [runFrom]
    rw [h]
  · rw [runFrom_trace_length]
    rfl

/-- Witness for C6: an unresolvable domain errors, yet the run continues and
the next URL still receives its own outcome. -/
theorem c6_error_containment_witness :
    (processItem cxEnvNoDomain (initState []) 1 cxUrlA).outcome = Outcome.err
    ∧ ((processItem cxEnvNoDomain (initState []) 1 cxUrlA).st.errored
          = (initState []).errored + 1
       ∧ (runFrom cxEnvNoDomain (initState []) 1 (cxUrlA :: ["http://x.com/b".toList])).2
          = Outcome.err :: (runFrom cxEnvNoDomain
              (processItem cxEnvNoDomain (initState []) 1 cxUrlA).st 2
              ["http://x.com/b".toList]).2
       ∧ (runFrom cxEnvNoDomain (initState []) 1
            (cxUrlA :: ["http://x.com/b".toList])).2.length
          = (["http://x.com/b".toList] : List (List Char)).length + 1) :=
  ⟨by decide,
   c6_error_containment cxEnvNoDomain (initState []) 1 cxUrlA ["http://x.com/b".toList]
     (by decide)⟩

theorem afterDirStep_counted (env : ScrapeEnv) (st : RunState) (fs1 : Fs) (idx : Nat)
    (url dir : List Char) :
    counted (afterDirStep env st fs1 idx url dir).st = counted st + 1 := by
  by_cases hex : pathExists fs1 (joinPath dir (resolveOutputFilename url idx)) = true
  · simp [afterDirStep, hex, counted]
    omega
  · cases hf : env.fetch url with
    | none =>
      simp [afterDirStep, hex, hf, counted]
      omega
    | some md =>
      by_cases hmd : md = []
      · simp [afterDirStep, hex, hf, hmd, counted]
        omega
      · simp [afterDirStep, hex, hf, hmd, counted]
        omega

theorem processItem_counted (env : ScrapeEnv) (st : RunState) (idx : Nat) (url : List Char) :
    counted (processItem env st idx url).st = counted st + 1 := by
  by_cases hp : pdfCheck url = true
  · simp [processItem, hp, counted]
    omega
  · cases hd : domainOf env url with
    | none =>
      simp [processItem, hp, hd, counted]
      omega
    | some m =>
      by_cases hdir : pathExists st.fs (joinPath env.root m) = true
      · simp only [processItem, hp, Bool.false_eq_true, if_false, hd, hdir, if_true]
        exact afterDirStep_counted env st st.fs idx url _
      · by_cases hmk : env.mkdirOk (joinPath env.root m) = true
        · simp only [processItem, hp, Bool.false_eq_true, if_false, hd, hdir, hmk, if_true]
          exact afterDirStep_counted env st _ idx url _
        · simp [processItem, hp, hd, hdir, hmk, counted]
          omega

theorem runFrom_counted (urls : List (List Char)) :
    ∀ (env : ScrapeEnv) (st : RunState) (idx : Nat),
      counted (runFrom env st idx urls).1 = counted st + urls.length := by
  induction urls with
  | nil => intro env st idx; rfl
  | cons u rest ih =>
    intro env st idx
    simp only [runFrom, List.length_cons]
    rw [ih, processItem_counted]
    omega

/-- C3: counter conservation: at the end of every run the number of URLs
processed equals the sum of the four counters pdf-skips, exists-skips,
successes and errors (each loop iteration increments exactly one of them,
see processItem_counted). -/
theorem c3_counter_conservation (env : ScrapeEnv) (fs : Fs) (urls : List (List Char)) :
    (runPipeline env fs urls).1.skippedPdf + (runPipeline env fs urls).1.skippedExists
      + (runPipeline env fs urls).1.succeeded + (runPipeline env fs urls).1.errored
    = urls.length := by
  have h := runFrom_counted urls env (initState fs) 1
  simpa [runPipeline, counted, initState] using h

theorem lookupFs_pathExists (fs : Fs) (p : List Char) (v : Option (List Char))
    (h : lookupFs fs p = some v) : pathExists fs p = true := by
  induction fs with
  | nil => simp [lookupFs] at h
  | cons e rest ih =>
    by_cases he : e.1 = p
    · simp [pathExists, he]
    · simp only [lookupFs, he, if_false] at h
      simp only [pathExists, he, if_false]
      exact ih h

theorem lookupFs_cons_fresh (fs : Fs) (q : List Char) (x : Option (List Char))
    (p : List Char) (v : Option (List Char))
    (hq : pathExists fs q = false) (h : lookupFs fs p = some v) :
    lookupFs ((q, x) :: fs) p = some v := by
  have hp : pathExists fs p = true := lookupFs_pathExists fs p v h
  have hne : q ≠ p := by
    intro he
    rw [he] at hq
    rw [hp] at hq
    cases hq
  simp only [lookupFs, hne, if_false]
  exact h

theorem afterDirStep_lookup (env : ScrapeEnv) (st : RunState) (fs1 : Fs) (idx : Nat)
    (url dir p : List Char) (v : Option (List Char))
    (h : lookupFs fs1 p = some v) :
    lookupFs (afterDirStep env st fs1 idx url dir).st.fs p = some v := by
  by_cases hex : pathExists fs1 (joinPath dir (resolveOutputFilename url idx)) = true
  · simp only [afterDirStep, hex, if_true]
    exact h
  · cases hf : env.fetch url with
    | none =>
      simp only [afterDirStep, hex, Bool.false_eq_true, if_false, hf]
      exact h
    | some md =>
      by_cases hmd : md = []
      · simp only [afterDirStep, hex, Bool.false_eq_true, if_false, hf, hmd, if_true]
        exact h
      · simp only [afterDirStep, hex, Bool.false_eq_true, if_false, hf, hmd, if_true]
        exact lookupFs_cons_fresh fs1 _ _ p v (by simp_all) h

theorem processItem_lookup (env : ScrapeEnv) (st : RunState) (idx : Nat)
    (url p : List Char) (v : Option (List Char))
    (h : lookupFs st.fs p = some v) :
    lookupFs (processItem env st idx url).st.fs p = some v := by
  by_cases hp : pdfCheck url = true
  · simp only [processItem, hp, if_true]
    exact h
  · cases hd : domainOf env url with
    | none =>
      simp only [processItem, hp, Bool.false_eq_true, if_false, hd]
      exact h
    | some m =>
      by_cases hdir : pathExists st.fs (joinPath env.root m) = true
      · simp only [processItem, hp, Bool.false_eq_true, if_false, hd, hdir, if_true]
        exact afterDirStep_lookup env st st.fs idx url _ p v h
      · by_cases hmk : env.mkdirOk (joinPath env.root m) = true
        · simp only [processItem, hp, Bool.false_eq_true, if_false, hd, hdir, hmk, if_true]
          exact afterDirStep_lookup env st _ idx url _ p v
            (lookupFs_cons_fresh st.fs _ _ p v (by simp_all) h)
        · simp only [processItem, hp, Bool.false_eq_true, if_false, hd, hdir, hmk]
          exact h

theorem runFrom_lookup (urls : List (List Char)) :
    ∀ (env : ScrapeEnv) (st : RunState) (idx : Nat) (p : List Char) (v : Option (List Char)),
      lookupFs st.fs p = some v → lookupFs (runFrom env st idx urls).1.fs p = some v := by
  induction urls with
  | nil => intro env st idx p v h; exact h
  | cons u rest ih =>
    intro env st idx p v h
    simp only [runFrom]
    exact ih env _ (idx + 1) p v (processItem_lookup env st idx u p v h)

/-- C10: the pipeline never overwrites or modifies an existing filesystem
entry: every path present before the run (with its content) is still mapped
to the same content after the run, because a write is only performed when
the resolved output path did not exist at the time of the existence check. -/
theorem c10_no_overwrite (env : ScrapeEnv) (fs : Fs) (urls : List (List Char))
    (p : List Char) (v : Option (List Char)) (h : lookupFs fs p = some v) :
    lookupFs (runPipeline env fs urls).1.fs p = some v :=
  runFrom_lookup urls env (initState fs) 1 p v h

/-- Witness for C10: a pre-existing file keeps its old content across a run
whose fetch would return different content. -/
theorem c10_no_overwrite_witness :
    lookupFs [(cxDirXcom, none), (cxFileA, some "old".toList)] cxFileA
        = some (some "old".toList)
    ∧ lookupFs (runPipeline cxEnv [(cxDirXcom, none), (cxFileA, some "old".toList)]
          [cxUrlA]).1.fs cxFileA
        = some (some "old".toList) :=
  ⟨by decide,
   c10_no_overwrite cxEnv [(cxDirXcom, none), (cxFileA, some "old".toList)] [cxUrlA]
     cxFileA (some "old".toList) (by decide)⟩

theorem pathExists_cons (e : List Char × Option (List Char)) (fs : Fs) (p : List Char)
    (h : pathExists fs p = true) : pathExists (e :: fs) p = true := by
  simp only [pathExists]
  split
  · rfl
  · exact h

theorem afterDirStep_fs_mono (env : ScrapeEnv) (st : RunState) (fs1 : Fs) (idx : Nat)
    (url dir p : List Char) (h : pathExists fs1 p = true) :
    pathExists (afterDirStep env st fs1 idx url dir).st.fs p = true := by
  by_cases hex : pathExists fs1 (joinPath dir (resolveOutputFilename url idx)) = true
  · simp only [afterDirStep, hex, if_true]
    exact h
  · cases hf : env.fetch url with
    | none =>
      simp only [afterDirStep, hex, Bool.false_eq_true, if_false, hf]
      exact h
    | some md =>
      by_cases hmd : md = []
      · simp only [afterDirStep, hex, Bool.false_eq_true, if_false, hf, hmd, if_true]
        exact h
      · simp only [afterDirStep, hex, Bool.false_eq_true, if_false, hf, hmd, if_true]
        exact pathExists_cons _ _ _ h

theorem processItem_fs_mono (env : ScrapeEnv) (st : RunState) (idx : Nat)
    (url p : List Char) (h : pathExists st.fs p = true) :
    pathExists (processItem env st idx url).st.fs p = true := by
  by_cases hp : pdfCheck url = true
  · simp only [processItem, hp, if_true]
    exact h
  · cases hd : domainOf env url with
    | none =>
      simp only [processItem, hp, Bool.false_eq_true, if_false, hd]
      exact h
    | some m =>
      by_cases hdir : pathExists st.fs (joinPath env.root m) = true
      · simp only [processItem, hp, Bool.false_eq_true, if_false, hd, hdir, if_true]
        exact afterDirStep_fs_mono env st st.fs idx url _ p h
      · by_cases hmk : env.mkdirOk (joinPath env.root m) = true
        · simp only [processItem, hp, Bool.false_eq_true, if_false, hd, hdir, hmk, if_true]
          exact afterDirStep_fs_mono env st _ idx url _ p (pathExists_cons _ _ _ h)
        · simp only [processItem, hp, Bool.false_eq_true, if_false, hd, hdir, hmk]
          exact h

theorem runFrom_fs_mono (urls : List (List Char)) :
    ∀ (env : ScrapeEnv) (st : RunState) (idx : Nat) (p : List Char),
      pathExists st.fs p = true → pathExists (runFrom env st idx urls).1.fs p = true := by
  induction urls with
  | nil => intro env st idx p h; exact h
  | cons u rest ih =>
    intro env st idx p h
    simp only [runFrom]
    exact ih env _ (idx + 1) p (processItem_fs_mono env st idx u p h)

theorem itemGood_mono (env : ScrapeEnv) (F F2 : Fs) (idx : Nat) (url : List Char)
    (hm : ∀ q, pathExists F q = true → pathExists F2 q = true)
    (hg : itemGood env F idx url) : itemGood env F2 idx url := by
  rcases hg with h | ⟨m, h1, h2, h3⟩
  · exact Or.inl h
  · exact Or.inr ⟨m, h1, hm _ h2, hm _ h3⟩

theorem afterDirStep_good (env : ScrapeEnv) (st : RunState) (fs1 : Fs) (idx : Nat)
    (url dir : List Char)
    (hne : (afterDirStep env st fs1 idx url dir).outcome ≠ Outcome.err)
    (hdir : pathExists fs1 dir = true) :
    pathExists (afterDirStep env st fs1 idx url dir).st.fs dir = true
    ∧ pathExists (afterDirStep env st fs1 idx url dir).st.fs
        (joinPath dir (resolveOutputFilename url idx)) = true := by
  by_cases hex : pathExists fs1 (joinPath dir (resolveOutputFilename url idx)) = true
  · simp only [afterDirStep, hex, if_true]
    exact ⟨hdir, trivial⟩
  · cases hf : env.fetch url with
    | none => simp [afterDirStep, hex, hf] at hne
    | some md =>
      by_cases hmd : md = []
      · simp [afterDirStep, hex, hf, hmd] at hne
      · simp only [afterDirStep, hex, Bool.false_eq_true, if_false, hf, hmd, if_true]
        refine ⟨pathExists_cons _ _ _ hdir, ?_⟩
        simp [pathExists]

theorem processItem_good (env : ScrapeEnv) (st : RunState) (idx : Nat) (url : List Char)
    (hne : (processItem env st idx url).outcome ≠ Outcome.err) :
    itemGood env (processItem env st idx url).st.fs idx url := by
  by_cases hp : pdfCheck url = true
  · exact Or.inl hp
  · cases hd : domainOf env url with
    | none => simp [processItem, hp, hd] at hne
    | some m =>
      by_cases hdir : pathExists st.fs (joinPath env.root m) = true
      · simp only [processItem, hp, Bool.false_eq_true, if_false, hd, hdir, if_true] at hne ⊢
        obtain ⟨h1, h2⟩ := afterDirStep_good env st st.fs idx url _ hne hdir
        exact Or.inr ⟨m, hd, h1, h2⟩
      · by_cases hmk : env.mkdirOk (joinPath env.root m) = true
        · simp only [processItem, hp, Bool.false_eq_true, if_false, hd, hdir, hmk,
            if_true] at hne ⊢
          have hdir2 : pathExists ((joinPath env.root m, none) :: st.fs)
              (joinPath env.root m) = true := by simp [pathExists]
          obtain ⟨h1, h2⟩ := afterDirStep_good env st _ idx url _ hne hdir2
          exact Or.inr ⟨m, hd, h1, h2⟩
        · simp [processItem, hp, hd, hdir, hmk] at hne

theorem processItem_skips (env : ScrapeEnv) (st : RunState) (idx : Nat) (url : List Char)
    (hg : itemGood env st.fs idx url) :
    (processItem env st idx url).st.fs = st.fs
    ∧ (processItem env st idx url).st.fetchCount = st.fetchCount
    ∧ ((processItem env st idx url).outcome = Outcome.skipPdf
       ∨ (processItem env st idx url).outcome = Outcome.skipExists) := by
  by_cases hp : pdfCheck url = true
  · rw [processItem_pdf env st idx url hp]
    exact ⟨rfl, rfl, Or.inl rfl⟩
  · rcases hg with hpdf | ⟨m, hd, hdir, hout⟩
    · exact absurd hpdf hp
    · simp only [processItem, hp, Bool.false_eq_true, if_false, hd, hdir, if_true,
        afterDirStep, hout]
      exact ⟨trivial, trivial, Or.inr trivial⟩

theorem runFrom_good (urls : List (List Char)) :
    ∀ (env : ScrapeEnv) (st : RunState) (idx : Nat),
      (∀ o ∈ (runFrom env st idx urls).2, o ≠ Outcome.err) →
      ∀ k (hk : k < urls.length),
        itemGood env (runFrom env st idx urls).1.fs (idx + k) urls[k] := by
  induction urls with
  | nil =>
    intro env st idx h k hk
    exact absurd hk (by simp)
  | cons u rest ih =>
    intro env st idx h k hk
    simp only [runFrom] at h ⊢
    have h0 : (processItem env st idx u).outcome ≠ Outcome.err := by
      have := h (processItem env st idx u).outcome (by simp)
      exact this
    have hrest : ∀ o ∈ (runFrom env (processItem env st idx u).st (idx + 1) rest).2,
        o ≠ Outcome.err := by
      intro o ho
      exact h o (by simp [ho])
    cases k with
    | zero =>
      have hg := processItem_good env st idx u h0
      have hmono := runFrom_fs_mono rest env (processItem env st idx u).st (idx + 1)
      simpa using itemGood_mono env _ _ idx u (fun q hq => hmono q hq) hg
    | succ k2 =>
      have hk2 : k2 < rest.length := by simpa using hk
      have hgen := ih env (processItem env st idx u).st (idx + 1) hrest k2 hk2
      have heq : idx + (k2 + 1) = idx + 1 + k2 := by omega
      rw [heq]
      simpa using hgen

theorem runFrom_skips (urls : List (List Char)) :
    ∀ (env : ScrapeEnv) (st : RunState) (idx : Nat),
      (∀ k (hk : k < urls.length), itemGood env st.fs (idx + k) urls[k]) →
      (runFrom env st idx urls).1.fs = st.fs
      ∧ (runFrom env st idx urls).1.fetchCount = st.fetchCount
      ∧ ∀ o ∈ (runFrom env st idx urls).2,
          o = Outcome.skipPdf ∨ o = Outcome.skipExists := by
  induction urls with
  | nil =>
    intro env st idx h
    exact ⟨rfl, rfl, by simp [runFrom]⟩
  | cons u rest ih =>
    intro env st idx h
    have h0 : itemGood env st.fs idx u := by
      have := h 0 (by simp)
      simpa using this
    obtain ⟨hfs, hfc, hout⟩ := processItem_skips env st idx u h0
    have hrest : ∀ k (hk : k < rest.length),
        itemGood env (processItem env st idx u).st.fs (idx + 1 + k) rest[k] := by
      intro k hk
      rw [hfs]
      have hh := h (k + 1) (by simpa using Nat.succ_lt_succ hk)
      have heq : idx + (k + 1) = idx + 1 + k := by omega
      rw [heq] at hh
      simpa using hh
    obtain ⟨ih1, ih2, ih3⟩ := ih env (processItem env st idx u).st (idx + 1) hrest
    refine ⟨?_, ?_, ?_⟩
    · simp only [runFrom]
      rw [ih1, hfs]
    · simp only [runFrom]
      rw [ih2, hfc]
    · simp only [runFrom]
      intro o ho
      rcases List.mem_cons.mp ho with he | hm
      · rw [he]
        exact hout
      · exact ih3 o hm

/-- C4 (amended): if the first sequential run over a URL list completed with
no errored item, a second run over the same list against the resulting
filesystem performs zero network fetches, and every item of the second run
resolves to SKIP_PDF (for URLs passing the PDF filter) or SKIP_EXISTS. -/
theorem c4_idempotent_second_run (env : ScrapeEnv) (fs0 : Fs) (urls : List (List Char))
    (h : ∀ o ∈ (runPipeline env fs0 urls).2, o ≠ Outcome.err) :
    (runPipeline env (runPipeline env fs0 urls).1.fs urls).1.fetchCount = 0
    ∧ ∀ o ∈ (runPipeline env (runPipeline env fs0 urls).1.fs urls).2,
        o = Outcome.skipPdf ∨ o = Outcome.skipExists := by
  have hg := runFrom_good urls env (initState fs0) 1 h
  have hs := runFrom_skips urls env (initState (runPipeline env fs0 urls).1.fs) 1
    (fun k hk => hg k hk)
  exact ⟨hs.2.1, hs.2.2⟩

/-- Witness for C4: one URL, saved on the first run, skipped as existing on
the second, with no fetch in the second run. -/
theorem c4_idempotent_second_run_witness :
    (∀ o ∈ (runPipeline cxEnv [] [cxUrlA]).2, o ≠ Outcome.err)
    ∧ ((runPipeline cxEnv (runPipeline cxEnv [] [cxUrlA]).1.fs [cxUrlA]).1.fetchCount = 0
       ∧ ∀ o ∈ (runPipeline cxEnv (runPipeline cxEnv [] [cxUrlA]).1.fs [cxUrlA]).2,
           o = Outcome.skipPdf ∨ o = Outcome.skipExists) :=
  ⟨by decide, c4_idempotent_second_run cxEnv [] [cxUrlA] (by decide)⟩

/-- Counterexample to C4 as stated: with the input ["http://x.com/doc.pdf"]
the first run completes (its only item is a pdf-skip, not an error), yet in
the second run the item again resolves to SKIP_PDF, not to SKIP_EXISTS. -/
theorem c4_counterexample :
    (∀ o ∈ (runPipeline cxEnv [] [cxUrlPdf]).2, o ≠ Outcome.err)
    ∧ (runPipeline cxEnv (runPipeline cxEnv [] [cxUrlPdf]).1.fs [cxUrlPdf]).2
        = [Outcome.skipPdf]
    ∧ Outcome.skipPdf ≠ Outcome.skipExists := by
  decide
